import Mathlib

/-!
# Verification of the player-management script

A shallow embedding of src/paper/manage_players.py: the script loads a
player list from players.yml, generates whitelist.json, rewrites the
max-players line of server.properties, and writes the KeepInvIndividual
plugin list.  File contents are modelled as character lists, the parsed
YAML input as an explicit datatype, and each Python function as a pure
Lean function over that state; printing is modelled as a message trace.
-/

namespace ManagePlayers

set_option autoImplicit false

/-- A participant record of players.yml.  Each field of the Python dict
may be absent, which the script handles per consumer: a missing uuid or
name raises KeyError in generate_whitelist, while a missing
keepInventoryEnabled defaults to False via dict.get. -/
structure Player where
  uuid : Option String
  name : Option String
  keepInventoryEnabled : Option Bool
deriving DecidableEq, Repr

/-- One record of the generated whitelist.json: the two fields copied
from the player record. -/
structure WhitelistEntry where
  uuid : String
  name : String
deriving DecidableEq, Repr

/-- The parsed content of players.yml as yaml.safe_load returns it: an
empty document parses to None, otherwise a mapping whose optional
top-level key holds the player list. -/
inductive Yaml where
  | null : Yaml
  | mapping : Option (List Player) → Yaml
deriving DecidableEq, Repr

/-- The console messages the script prints, one constructor per print
call of manage_players.py. -/
inductive Msg where
  | warnNoPlayersFile : Msg
  | warnNoPropsFile : Msg
  | warnNoKeepinvFile : Msg
  | generatedWhitelist : Nat → Msg
  | updatedMaxPlayers : Nat → Msg
  | maxPlayersNotFound : Msg
  | updatedKeepInv : Nat → Msg
  | header : Msg
  | loadedPlayers : Nat → Msg
  | noPlayersFound : Msg
  | completed : Msg
deriving DecidableEq, Repr

/-- The files the script touches.  None means the file does not exist;
whitelist.json and keepInvList.yml carry their structured content (the
JSON and YAML serializations are injective formatting of these values),
server.properties carries its decoded text as a character list. -/
structure FS where
  players : Option Yaml
  whitelist : Option (List WhitelistEntry)
  properties : Option (List Char)
  keepinv : Option (List String)
deriving DecidableEq, Repr

/-- Result of one run: the final file state, the message trace, and the
propagated exception if the run aborted. -/
structure RunOut where
  fs : FS
  msgs : List Msg
  error : Option String
deriving DecidableEq, Repr

/-! ## Text helpers: Python readlines / writelines and str(int) -/

/-- Worker for readlines: split after every newline character, keeping
the terminator with its line; acc holds the current line reversed. -/
def splitAux : List Char → List Char → List (List Char)
  | acc, [] => if acc = [] then [] else [acc.reverse]
  | acc, c :: cs =>
    if c = '\n' then (acc.reverse ++ ['\n']) :: splitAux [] cs
    else splitAux (c :: acc) cs

/-- Python f.readlines(): the lines of the content, each keeping its
trailing newline; a final fragment without a newline is its own line. -/
def readlines (s : List Char) : List (List Char) :=
  splitAux [] s

/-- Python f.writelines: concatenate the lines verbatim. -/
def writelines (lines : List (List Char)) : List Char :=
  lines.flatten

/-- Fuel-based worker for the decimal rendering: the fuel always
suffices because a number shrinks at every division by ten. -/
def natDecimalAux : Nat → Nat → List Char
  | 0, _ => []
  | fuel + 1, n =>
    if n < 10 then [Char.ofNat (48 + n)]
    else natDecimalAux fuel (n / 10) ++ [Char.ofNat (48 + n % 10)]

/-- Decimal digits of a natural number, as Python str() renders the
player count inside the f-string. -/
def natDecimal (n : Nat) : List Char :=
  natDecimalAux (n + 1) n

/-! ## The script's functions -/

/-- load_players: a missing file warns and yields the empty list; an
existing file is parsed and data.get of the players key is returned,
which raises AttributeError when the document parsed to None. -/
def load_players (file : Option Yaml) : Except String (List Player × List Msg) :=
  match file with
  | none => .ok ([], [Msg.warnNoPlayersFile])
  | some Yaml.null => .error "AttributeError: NoneType object has no attribute get"
  | some (Yaml.mapping ps) => .ok (ps.getD [], [])

/-- The list-building loop of generate_whitelist: for each player in
order, read player uuid and player name by dict indexing, raising
KeyError on the first absent field. -/
def buildWhitelist : List Player → Except String (List WhitelistEntry)
  | [] => .ok []
  | p :: ps =>
    match p.uuid with
    | none => .error "KeyError: uuid"
    | some u =>
      match p.name with
      | none => .error "KeyError: name"
      | some n =>
        match buildWhitelist ps with
        | .error e => .error e
        | .ok rest => .ok (⟨u, n⟩ :: rest)

/-- generate_whitelist: build the whole list first, then overwrite the
output file; on a KeyError the file is never opened, so its previous
content survives. -/
def generate_whitelist (players : List Player) (file : Option (List WhitelistEntry)) :
    Option (List WhitelistEntry) × List Msg × Option String :=
  match buildWhitelist players with
  | .error e => (file, [], some e)
  | .ok wl => (some wl, [Msg.generatedWhitelist wl.length], none)

/-- The key the properties updater scans for. -/
def maxPlayersKey : List Char := "max-players=".toList

/-- The replacement line the updater writes for n players. -/
def maxPlayersLine (n : Nat) : List Char :=
  maxPlayersKey ++ natDecimal n ++ ['\n']

/-- The for-loop of update_server_properties: replace the first line
that startswith the key and stop scanning; report whether a line was
replaced. -/
def updateLines (n : Nat) : List (List Char) → List (List Char) × Bool
  | [] => ([], false)
  | l :: ls =>
    if maxPlayersKey.isPrefixOf l then (maxPlayersLine n :: ls, true)
    else
      let r := updateLines n ls
      (l :: r.1, r.2)

/-- update_server_properties: a missing file warns and writes nothing;
otherwise readlines, replace the first max-players line with the count,
write all lines back, and report success or a not-found warning. -/
def update_server_properties (players : List Player) (content : Option (List Char)) :
    Option (List Char) × List Msg :=
  match content with
  | none => (none, [Msg.warnNoPropsFile])
  | some s =>
    let r := updateLines players.length (readlines s)
    (some (writelines r.1),
      [if r.2 then Msg.updatedMaxPlayers players.length else Msg.maxPlayersNotFound])

/-- The filtering loop of update_keepinv_config: keep the uuid of each
player whose keepInventoryEnabled flag is present and true (dict.get
with default False); indexing uuid can still raise KeyError. -/
def buildKeepInv : List Player → Except String (List String)
  | [] => .ok []
  | p :: ps =>
    if p.keepInventoryEnabled.getD false then
      match p.uuid with
      | none => .error "KeyError: uuid"
      | some u =>
        match buildKeepInv ps with
        | .error e => .error e
        | .ok rest => .ok (u :: rest)
    else buildKeepInv ps

/-- update_keepinv_config: warn when the file is absent (then create
the directory chain), build the filtered uuid list, and overwrite the
file with it. -/
def update_keepinv_config (players : List Player) (file : Option (List String)) :
    Option (List String) × List Msg × Option String :=
  let warn := if file = none then [Msg.warnNoKeepinvFile] else []
  match buildKeepInv players with
  | .error e => (file, warn, some e)
  | .ok l => (some l, warn ++ [Msg.updatedKeepInv l.length], none)

/-- main: load the players, short-circuit with a status message when
none were found, otherwise run the three derivation steps in order,
aborting the rest of the run at the first propagated exception. -/
def main (fs : FS) : RunOut :=
  match load_players fs.players with
  | .error e => ⟨fs, [Msg.header], some e⟩
  | .ok (players, lmsgs) =>
    if players = [] then
      ⟨fs, Msg.header :: lmsgs ++ [Msg.noPlayersFound], none⟩
    else
      let msgs0 := Msg.header :: lmsgs ++ [Msg.loadedPlayers players.length]
      let w := generate_whitelist players fs.whitelist
      let fs1 : FS := { fs with whitelist := w.1 }
      match w.2.2 with
      | some e => ⟨fs1, msgs0 ++ w.2.1, some e⟩
      | none =>
        let pr := update_server_properties players fs1.properties
        let fs2 : FS := { fs1 with properties := pr.1 }
        let k := update_keepinv_config players fs2.keepinv
        let fs3 : FS := { fs2 with keepinv := k.1 }
        match k.2.2 with
        | some e => ⟨fs3, msgs0 ++ w.2.1 ++ pr.2 ++ k.2.1, some e⟩
        | none => ⟨fs3, msgs0 ++ w.2.1 ++ pr.2 ++ k.2.1 ++ [Msg.completed], none⟩

/-! ## Lemmas about line splitting and joining -/

/-- A line as readlines produces it mid-file: content without a
newline, terminated by one. -/
def ClosedLine (l : List Char) : Prop :=
  ∃ cs, '\n' ∉ cs ∧ l = cs ++ ['\n']

/-- A final line without a terminator: nonempty, newline-free. -/
def OpenLine (l : List Char) : Prop :=
  l ≠ [] ∧ '\n' ∉ l

/-- The shape of any readlines output: every line closed, except that
the final line may be open. -/
inductive WfLines : List (List Char) → Prop
  | nil : WfLines []
  | singleOpen (l : List Char) : OpenLine l → WfLines [l]
  | consClosed (l : List Char) (ls : List (List Char)) :
      ClosedLine l → WfLines ls → WfLines (l :: ls)

theorem splitAux_flatten (s : List Char) : ∀ acc : List Char,
    (splitAux acc s).flatten = acc.reverse ++ s := by
  induction s with
  | nil =>
    intro acc
    by_cases h : acc = [] <;> simp [splitAux, h]
  | cons c cs ih =>
    intro acc
    by_cases h : c = '\n'
    · subst h
      simp [splitAux, ih]
    · simp [splitAux, h, ih (c :: acc)]

theorem writelines_readlines (s : List Char) : writelines (readlines s) = s := by
  simpa [writelines, readlines] using splitAux_flatten s []

theorem splitAux_no_newline (l : List Char) : ∀ acc : List Char, '\n' ∉ l →
    splitAux acc l = if acc.reverse ++ l = [] then [] else [acc.reverse ++ l] := by
  induction l with
  | nil =>
    intro acc _
    by_cases h : acc = [] <;> simp [splitAux, h]
  | cons c cs ih =>
    intro acc hmem
    have hc : c ≠ '\n' := fun h => hmem (h ▸ List.mem_cons_self c cs)
    have hcs : '\n' ∉ cs := fun h => hmem (List.mem_cons_of_mem c h)
    rw [splitAux, if_neg hc, ih (c :: acc) hcs]
    simp

theorem splitAux_closed (cs : List Char) : ∀ (acc rest : List Char), '\n' ∉ cs →
    splitAux acc (cs ++ '\n' :: rest) =
      (acc.reverse ++ cs ++ ['\n']) :: splitAux [] rest := by
  induction cs with
  | nil =>
    intro acc rest _
    simp [splitAux]
  | cons c cs ih =>
    intro acc rest hmem
    have hc : c ≠ '\n' := fun h => hmem (h ▸ List.mem_cons_self c cs)
    have hcs : '\n' ∉ cs := fun h => hmem (List.mem_cons_of_mem c h)
    rw [List.cons_append, splitAux, if_neg hc, ih (c :: acc) rest hcs]
    simp

theorem wf_splitAux (s : List Char) : ∀ acc : List Char, '\n' ∉ acc →
    WfLines (splitAux acc s) := by
  induction s with
  | nil =>
    intro acc hacc
    by_cases h : acc = []
    · simp [splitAux, h]
      exact WfLines.nil
    · rw [splitAux, if_neg h]
      refine WfLines.singleOpen _ ⟨by simpa using h, by simpa using hacc⟩
  | cons c cs ih =>
    intro acc hacc
    by_cases h : c = '\n'
    · subst h
      rw [splitAux, if_pos rfl]
      exact WfLines.consClosed _ _ ⟨acc.reverse, by simpa using hacc, rfl⟩
        (ih [] (by simp))
    · rw [splitAux, if_neg h]
      refine ih (c :: acc) ?_
      intro hmem
      rcases List.mem_cons.mp hmem with hh | hh
      · exact h hh.symm
      · exact hacc hh

theorem wf_readlines (s : List Char) : WfLines (readlines s) := by
  exact wf_splitAux s [] (by simp)

theorem readlines_flatten (L : List (List Char)) (h : WfLines L) :
    readlines L.flatten = L := by
  induction h with
  | nil => rfl
  | singleOpen l hl =>
    rw [List.flatten_cons, List.flatten_nil, List.append_nil, readlines,
      splitAux_no_newline l [] hl.2]
    simp [hl.1]
  | consClosed l ls hl _ ih =>
    obtain ⟨cs, hcs, rfl⟩ := hl
    rw [List.flatten_cons, List.append_assoc, List.singleton_append, readlines,
      splitAux_closed cs [] ls.flatten hcs]
    simpa using ih

/-! ## Lemmas about the max-players replacement -/

theorem digitChar_ne_newline (d : Nat) (h : d < 10) : Char.ofNat (48 + d) ≠ '\n' := by
  interval_cases d <;> decide

theorem newline_not_mem_natDecimalAux (fuel : Nat) : ∀ n : Nat,
    '\n' ∉ natDecimalAux fuel n := by
  induction fuel with
  | zero => intro n; simp [natDecimalAux]
  | succ fuel ih =>
    intro n
    rw [natDecimalAux]
    by_cases h : n < 10
    · simp only [if_pos h, List.mem_singleton]
      exact fun hh => digitChar_ne_newline n h hh.symm
    · simp only [if_neg h, List.mem_append, List.mem_singleton]
      rintro (hh | hh)
      · exact ih (n / 10) hh
      · exact digitChar_ne_newline (n % 10) (Nat.mod_lt n (by omega)) hh.symm

theorem newline_not_mem_natDecimal (n : Nat) : '\n' ∉ natDecimal n :=
  newline_not_mem_natDecimalAux (n + 1) n

theorem closedLine_maxPlayersLine (n : Nat) : ClosedLine (maxPlayersLine n) := by
  refine ⟨maxPlayersKey ++ natDecimal n, ?_, by simp [maxPlayersLine]⟩
  intro h
  rcases List.mem_append.mp h with h | h
  · revert h; decide
  · exact newline_not_mem_natDecimal n h

theorem maxPlayersKey_isPrefixOf_maxPlayersLine (n : Nat) :
    maxPlayersKey.isPrefixOf (maxPlayersLine n) = true := by
  rw [List.isPrefixOf_iff_prefix, maxPlayersLine, List.append_assoc]
  exact List.prefix_append _ _

theorem updateLines_of_not_found (n : Nat) (L : List (List Char))
    (h : ∀ l ∈ L, maxPlayersKey.isPrefixOf l = false) :
    updateLines n L = (L, false) := by
  induction L with
  | nil => rfl
  | cons l ls ih =>
    rw [updateLines, h l (List.mem_cons_self l ls)]
    simp [ih fun l' hl' => h l' (List.mem_cons_of_mem l hl')]

theorem updateLines_of_found (n : Nat) (pre post : List (List Char)) (l : List Char)
    (hpre : ∀ l' ∈ pre, maxPlayersKey.isPrefixOf l' = false)
    (hl : maxPlayersKey.isPrefixOf l = true) :
    updateLines n (pre ++ l :: post) = (pre ++ maxPlayersLine n :: post, true) := by
  induction pre with
  | nil => simp [updateLines, hl]
  | cons q pre ih =>
    rw [List.cons_append, updateLines, hpre q (List.mem_cons_self q pre)]
    simp [ih fun l' hl' => hpre l' (List.mem_cons_of_mem q hl')]

/-- Every updateLines run either finds no matching line and returns the
input, or splits the input around the first matching line. -/
theorem updateLines_decomp (n : Nat) (L : List (List Char)) :
    (updateLines n L = (L, false) ∧ ∀ l ∈ L, maxPlayersKey.isPrefixOf l = false) ∨
    (∃ pre l post, L = pre ++ l :: post ∧
      (∀ l' ∈ pre, maxPlayersKey.isPrefixOf l' = false) ∧
      maxPlayersKey.isPrefixOf l = true ∧
      updateLines n L = (pre ++ maxPlayersLine n :: post, true)) := by
  induction L with
  | nil => exact .inl ⟨rfl, by simp⟩
  | cons l ls ih =>
    by_cases h : maxPlayersKey.isPrefixOf l = true
    · refine .inr ⟨[], l, ls, by simp, by simp, h, ?_⟩
      simp [updateLines, h]
    · rcases ih with ⟨heq, hall⟩ | ⟨pre, l₀, post, rfl, hpre, hl₀, heq⟩
      · refine .inl ⟨?_, ?_⟩
        · rw [updateLines, Bool.of_not_eq_true h]
          simp [heq]
        · intro l' hl'
          rcases List.mem_cons.mp hl' with rfl | hmem
          · exact Bool.of_not_eq_true h
          · exact hall l' hmem
      · refine .inr ⟨l :: pre, l₀, post, rfl, ?_, hl₀, ?_⟩
        · intro l' hl'
          rcases List.mem_cons.mp hl' with rfl | hmem
          · exact Bool.of_not_eq_true h
          · exact hpre l' hmem
        · rw [List.cons_append, updateLines, Bool.of_not_eq_true h]
          simp [heq]

/-- Inversion for a well-formed nonempty line list: the head is closed
with a well-formed tail, or it is the lone open final line. -/
theorem wfLines_cons_inv (l : List Char) (ls : List (List Char))
    (h : WfLines (l :: ls)) :
    (ClosedLine l ∧ WfLines ls) ∨ (ls = [] ∧ OpenLine l) := by
  cases h with
  | singleOpen _ hl => exact .inr ⟨rfl, hl⟩
  | consClosed _ _ hl hwf => exact .inl ⟨hl, hwf⟩

/-- Replacing one line of a well-formed line list by a closed line
keeps it well-formed. -/
theorem wf_replace (l' : List Char) (hl' : ClosedLine l') :
    ∀ (pre : List (List Char)) (l : List Char) (post : List (List Char)),
    WfLines (pre ++ l :: post) → WfLines (pre ++ l' :: post) := by
  intro pre
  induction pre with
  | nil =>
    intro l post h
    rcases wfLines_cons_inv l post h with ⟨_, hwf⟩ | ⟨rfl, _⟩
    · exact WfLines.consClosed _ _ hl' hwf
    · exact WfLines.consClosed _ _ hl' WfLines.nil
  | cons q pre ih =>
    intro l post h
    rcases wfLines_cons_inv q (pre ++ l :: post) h with ⟨hq, hwf⟩ | ⟨habs, _⟩
    · exact WfLines.consClosed _ _ hq (ih l post hwf)
    · exact absurd habs (by simp)

theorem wf_updateLines (n : Nat) (L : List (List Char)) (h : WfLines L) :
    WfLines (updateLines n L).1 := by
  rcases updateLines_decomp n L with ⟨heq, _⟩ | ⟨pre, l, post, rfl, _, _, heq⟩
  · rw [heq]; exact h
  · rw [heq]
    exact wf_replace (maxPlayersLine n) (closedLine_maxPlayersLine n) pre l post h

/-- The core idempotence step: scanning an already-updated line list
again replaces the same line with the same content. -/
theorem updateLines_idem (n : Nat) (L : List (List Char)) :
    updateLines n (updateLines n L).1 = updateLines n L := by
  rcases updateLines_decomp n L with ⟨heq, _⟩ | ⟨pre, l, post, rfl, hpre, _, heq⟩
  · rw [heq, heq]
  · rw [heq]
    rw [updateLines_of_found n pre post (maxPlayersLine n) hpre
      (maxPlayersKey_isPrefixOf_maxPlayersLine n)]

/-! ## Lemmas about closed lines and trailing newlines -/

theorem closedLine_getLast (l : List Char) (h : ClosedLine l) :
    l.getLast? = some '\n' := by
  obtain ⟨cs, _, rfl⟩ := h
  exact List.getLast?_concat cs

theorem wf_dropLast_closed (L : List (List Char)) (h : WfLines L) :
    ∀ l ∈ L.dropLast, ClosedLine l := by
  induction h with
  | nil => simp
  | singleOpen l hl => simp
  | consClosed l ls hl hwf ih =>
    cases ls with
    | nil => simp
    | cons l' ls' =>
      intro x hx
      rw [List.dropLast_cons₂] at hx
      rcases List.mem_cons.mp hx with rfl | hmem
      · exact hl
      · exact ih x hmem

theorem splitAux_all_closed (s : List Char) : ∀ acc : List Char, '\n' ∉ acc →
    s.getLast? = some '\n' → ∀ l ∈ splitAux acc s, ClosedLine l := by
  induction s with
  | nil => intro _ _ h; simp at h
  | cons c cs ih =>
    intro acc hacc hlast
    cases cs with
    | nil =>
      simp only [List.getLast?_singleton, Option.some.injEq] at hlast
      subst hlast
      rw [splitAux, if_pos rfl, splitAux]
      intro l hl
      rcases List.mem_cons.mp hl with rfl | hmem
      · exact ⟨acc.reverse, by simpa using hacc, rfl⟩
      · simp at hmem
    | cons c' cs' =>
      rw [List.getLast?_cons_cons] at hlast
      by_cases h : c = '\n'
      · subst h
        rw [splitAux, if_pos rfl]
        intro l hl
        rcases List.mem_cons.mp hl with rfl | hmem
        · exact ⟨acc.reverse, by simpa using hacc, rfl⟩
        · exact ih [] (by simp) hlast l hmem
      · rw [splitAux, if_neg h]
        refine ih (c :: acc) ?_ hlast
        intro hmem
        rcases List.mem_cons.mp hmem with hh | hh
        · exact h hh.symm
        · exact hacc hh

theorem readlines_all_closed (s : List Char) (h : s.getLast? = some '\n') :
    ∀ l ∈ readlines s, ClosedLine l :=
  splitAux_all_closed s [] (by simp) h

theorem flatten_all_closed_getLast (L : List (List Char))
    (h : ∀ l ∈ L, ClosedLine l) (hne : L ≠ []) :
    L.flatten.getLast? = some '\n' := by
  induction L with
  | nil => exact absurd rfl hne
  | cons l ls ih =>
    cases ls with
    | nil =>
      rw [List.flatten_cons, List.flatten_nil, List.append_nil]
      exact closedLine_getLast l (h l (List.mem_cons_self l []))
    | cons l' ls' =>
      rw [List.flatten_cons, List.getLast?_append]
      have htail := ih (fun x hx => h x (List.mem_cons_of_mem l hx)) (by simp)
      rw [htail]
      rfl

theorem updateLines_all_closed (n : Nat) (L : List (List Char))
    (h : ∀ l ∈ L, ClosedLine l) :
    ∀ l ∈ (updateLines n L).1, ClosedLine l := by
  rcases updateLines_decomp n L with ⟨heq, _⟩ | ⟨pre, l₀, post, rfl, _, _, heq⟩
  · rw [heq]; exact h
  · rw [heq]
    intro l hl
    rcases List.mem_append.mp hl with hmem | hmem
    · exact h l (List.mem_append.mpr (.inl hmem))
    · rcases List.mem_cons.mp hmem with rfl | hmem
      · exact closedLine_maxPlayersLine n
      · exact h l (List.mem_append.mpr (.inr (List.mem_cons_of_mem l₀ hmem)))

/-! ## Lemmas about the whitelist and keep-inventory loops -/

theorem buildWhitelist_ok (players : List Player)
    (h : ∀ p ∈ players, p.uuid.isSome ∧ p.name.isSome) :
    buildWhitelist players =
      .ok (players.map fun p => ⟨p.uuid.getD "", p.name.getD ""⟩) := by
  induction players with
  | nil => rfl
  | cons p ps ih =>
    obtain ⟨hu, hn⟩ := h p (List.mem_cons_self p ps)
    obtain ⟨u, hu⟩ := Option.isSome_iff_exists.mp hu
    obtain ⟨n, hn⟩ := Option.isSome_iff_exists.mp hn
    rw [buildWhitelist, hu, hn, ih fun q hq => h q (List.mem_cons_of_mem p hq)]
    simp [hu, hn]

theorem buildWhitelist_error (players : List Player)
    (h : ∃ p ∈ players, p.uuid = none ∨ p.name = none) :
    ∃ e, buildWhitelist players = .error e := by
  induction players with
  | nil => simp at h
  | cons p ps ih =>
    rw [buildWhitelist]
    cases hu : p.uuid with
    | none => exact ⟨_, rfl⟩
    | some u =>
      cases hn : p.name with
      | none => exact ⟨_, rfl⟩
      | some n =>
        have hps : ∃ q ∈ ps, q.uuid = none ∨ q.name = none := by
          obtain ⟨q, hq, hmiss⟩ := h
          rcases List.mem_cons.mp hq with rfl | hmem
          · rcases hmiss with hh | hh
            · rw [hu] at hh; cases hh
            · rw [hn] at hh; cases hh
          · exact ⟨q, hmem, hmiss⟩
        obtain ⟨e, he⟩ := ih hps
        rw [he]
        exact ⟨e, rfl⟩

theorem getD_false_eq_true_iff (o : Option Bool) :
    o.getD false = true ↔ o = some true := by
  cases o <;> simp

theorem buildKeepInv_ok (players : List Player)
    (h : ∀ p ∈ players, p.keepInventoryEnabled = some true → p.uuid.isSome) :
    buildKeepInv players =
      .ok (players.filterMap fun p =>
        if p.keepInventoryEnabled.getD false then p.uuid else none) := by
  induction players with
  | nil => rfl
  | cons p ps ih =>
    have ihps := ih fun q hq => h q (List.mem_cons_of_mem p hq)
    by_cases hflag : p.keepInventoryEnabled.getD false = true
    · have hsome : p.keepInventoryEnabled = some true :=
        (getD_false_eq_true_iff _).mp hflag
      obtain ⟨u, hu⟩ := Option.isSome_iff_exists.mp (h p (List.mem_cons_self p ps) hsome)
      rw [buildKeepInv, if_pos hflag, hu, ihps, List.filterMap_cons]
      simp [hflag, hu]
    · rw [buildKeepInv, if_neg hflag, ihps, List.filterMap_cons]
      simp [Bool.of_not_eq_true hflag]

/-! ## The claims -/

/-- C1: for a non-empty player list and an existing settings file whose
lines split into a non-matching prefix, the first max-players line, and
the rest, the capacity updater writes back exactly those lines with
only the first matching line replaced by the key, the decimal player
count and a newline, leaving every other line byte-identical in its
original order, and reports the update. -/
theorem C1 (players : List Player) (_hne : players ≠ []) (s : List Char)
    (pre post : List (List Char)) (l : List Char)
    (hs : readlines s = pre ++ l :: post)
    (hpre : ∀ l' ∈ pre, maxPlayersKey.isPrefixOf l' = false)
    (hl : maxPlayersKey.isPrefixOf l = true) :
    update_server_properties players (some s) =
      (some (writelines (pre ++ maxPlayersLine players.length :: post)),
        [Msg.updatedMaxPlayers players.length]) := by
  simp only [update_server_properties, hs,
    updateLines_of_found players.length pre post l hpre hl]
  simp

/-- Witness for C1: the spec's example file with three players turns
max-players=5 into max-players=3 and keeps foo and bar untouched. -/
theorem C1_witness :
    ([⟨some "a", some "A", none⟩, ⟨some "b", some "B", none⟩,
        ⟨some "c", some "C", none⟩] : List Player) ≠ [] ∧
    readlines "foo=1\nmax-players=5\nbar=2\n".toList =
      ["foo=1\n".toList] ++ "max-players=5\n".toList :: ["bar=2\n".toList] ∧
    (∀ l' ∈ ["foo=1\n".toList], maxPlayersKey.isPrefixOf l' = false) ∧
    maxPlayersKey.isPrefixOf "max-players=5\n".toList = true ∧
    writelines (["foo=1\n".toList] ++ maxPlayersLine 3 :: ["bar=2\n".toList]) =
      "foo=1\nmax-players=3\nbar=2\n".toList ∧
    update_server_properties
        [⟨some "a", some "A", none⟩, ⟨some "b", some "B", none⟩,
          ⟨some "c", some "C", none⟩]
        (some "foo=1\nmax-players=5\nbar=2\n".toList) =
      (some (writelines (["foo=1\n".toList] ++
          maxPlayersLine 3 :: ["bar=2\n".toList])),
        [Msg.updatedMaxPlayers 3]) :=
  ⟨by decide, by decide, by decide, by decide, by decide,
    C1 _ (by decide) _ _ _ ("max-players=5\n".toList)
      (by decide) (by decide) (by decide)⟩

/-- C2: when every player record has both required fields,
generate_whitelist overwrites the file with exactly one record per
player holding the two fields copied verbatim, in input order, and the
output length equals the player count. -/
theorem C2 (players : List Player) (prev : Option (List WhitelistEntry))
    (h : ∀ p ∈ players, p.uuid.isSome ∧ p.name.isSome) :
    generate_whitelist players prev =
      (some (players.map fun p => ⟨p.uuid.getD "", p.name.getD ""⟩),
        [Msg.generatedWhitelist players.length], none) ∧
    (players.map fun p => (⟨p.uuid.getD "", p.name.getD ""⟩ : WhitelistEntry)).length
      = players.length := by
  refine ⟨?_, by simp⟩
  simp only [generate_whitelist, buildWhitelist_ok players h, List.length_map]

/-- Witness for C2 at the spec's two-player example. -/
theorem C2_witness :
    (∀ p ∈ ([⟨some "a", some "Alice", some true⟩,
        ⟨some "b", some "Bob", none⟩] : List Player),
      p.uuid.isSome ∧ p.name.isSome) ∧
    (generate_whitelist
        [⟨some "a", some "Alice", some true⟩, ⟨some "b", some "Bob", none⟩] none =
      (some (([⟨some "a", some "Alice", some true⟩,
          ⟨some "b", some "Bob", none⟩] : List Player).map
            fun p => ⟨p.uuid.getD "", p.name.getD ""⟩),
        [Msg.generatedWhitelist 2], none) ∧
    (([⟨some "a", some "Alice", some true⟩,
        ⟨some "b", some "Bob", none⟩] : List Player).map
          fun p => (⟨p.uuid.getD "", p.name.getD ""⟩ : WhitelistEntry)).length = 2) :=
  ⟨by decide, C2 _ none (by decide)⟩

/-- C3: whenever every player whose flag is present and true also has
a uuid, update_keepinv_config succeeds and writes the list holding, in
input order, exactly the uuids of the players whose
keepInventoryEnabled flag is present and true; a record without the
flag is excluded without any error. -/
theorem C3 (players : List Player) (prev : Option (List String))
    (h : ∀ p ∈ players, p.keepInventoryEnabled = some true → p.uuid.isSome) :
    ∃ l, update_keepinv_config players prev =
        (some l,
          (if prev = none then [Msg.warnNoKeepinvFile] else []) ++
            [Msg.updatedKeepInv l.length],
          none) ∧
      l = players.filterMap (fun p =>
        if p.keepInventoryEnabled.getD false then p.uuid else none) ∧
      ∀ u : String, u ∈ l ↔
        ∃ p ∈ players, p.uuid = some u ∧ p.keepInventoryEnabled = some true := by
  refine ⟨_, ?_, rfl, ?_⟩
  · simp only [update_keepinv_config, buildKeepInv_ok players h]
  · intro u
    simp only [List.mem_filterMap]
    constructor
    · rintro ⟨p, hp, hf⟩
      by_cases hflag : p.keepInventoryEnabled.getD false = true
      · rw [if_pos hflag] at hf
        exact ⟨p, hp, hf, (getD_false_eq_true_iff _).mp hflag⟩
      · rw [if_neg hflag] at hf
        cases hf
    · rintro ⟨p, hp, hu, hflag⟩
      refine ⟨p, hp, ?_⟩
      rw [hflag]
      simpa using hu

/-- Witness for C3 at the spec's example: Alice has the flag true, Bob
lacks the flag entirely, and only Alice's uuid is listed. -/
theorem C3_witness :
    (∀ p ∈ ([⟨some "a", some "Alice", some true⟩,
        ⟨some "b", some "Bob", none⟩] : List Player),
      p.keepInventoryEnabled = some true → p.uuid.isSome) ∧
    ∃ l, update_keepinv_config
        [⟨some "a", some "Alice", some true⟩, ⟨some "b", some "Bob", none⟩] none =
        (some l,
          (if (none : Option (List String)) = none
            then [Msg.warnNoKeepinvFile] else []) ++ [Msg.updatedKeepInv l.length],
          none) ∧
      l = ([⟨some "a", some "Alice", some true⟩,
          ⟨some "b", some "Bob", none⟩] : List Player).filterMap (fun p =>
            if p.keepInventoryEnabled.getD false then p.uuid else none) ∧
      ∀ u : String, u ∈ l ↔
        ∃ p ∈ ([⟨some "a", some "Alice", some true⟩,
            ⟨some "b", some "Bob", none⟩] : List Player),
          p.uuid = some u ∧ p.keepInventoryEnabled = some true :=
  ⟨by decide, C3 _ none (by decide)⟩

/-- C5: when loading yields the empty player list, main prints the
no-players status message, exits without an error, and leaves the whole
file state, hence all three output files, untouched. -/
theorem C5 (fs : FS) (lmsgs : List Msg)
    (hload : load_players fs.players = .ok ([], lmsgs)) :
    main fs = ⟨fs, Msg.header :: lmsgs ++ [Msg.noPlayersFound], none⟩ := by
  simp only [main, hload]
  simp

/-- Witness for C5: with players.yml absent the run warns, reports no
players, and touches nothing. -/
theorem C5_witness :
    load_players (FS.mk none none none none).players =
      .ok ([], [Msg.warnNoPlayersFile]) ∧
    main (FS.mk none none none none) =
      ⟨FS.mk none none none none,
        Msg.header :: [Msg.warnNoPlayersFile] ++ [Msg.noPlayersFound], none⟩ :=
  ⟨rfl, C5 _ _ rfl⟩

/-- C6: running the capacity updater twice with the same player list is
idempotent, whatever the initial settings-file state: the second run
writes the same bytes the first one wrote. -/
theorem C6 (players : List Player) (content : Option (List Char)) :
    (update_server_properties players
        (update_server_properties players content).1).1 =
      (update_server_properties players content).1 := by
  cases content with
  | none => rfl
  | some s =>
    have hrt : readlines (writelines (updateLines players.length (readlines s)).1) =
        (updateLines players.length (readlines s)).1 :=
      readlines_flatten _ (wf_updateLines _ _ (wf_readlines s))
    simp only [update_server_properties, hrt, updateLines_idem]

/-- C8: load_players tolerates a missing file with a warning and an
empty list, and an existing mapping without the players key yields an
empty list without a warning. -/
theorem C8 :
    load_players none = .ok ([], [Msg.warnNoPlayersFile]) ∧
    load_players (some (Yaml.mapping none)) = .ok ([], []) :=
  ⟨rfl, rfl⟩

/-- C10: a file parsing to the empty document makes load_players raise,
and every other modeled input is returned without an error: the
tolerant empty-list behavior covers only the missing file and the
mapping lacking the players key. -/
theorem C10 :
    (∃ e, load_players (some Yaml.null) = .error e) ∧
    ∀ y : Option Yaml, (∃ r, load_players y = .ok r) ∨ y = some Yaml.null := by
  refine ⟨⟨_, rfl⟩, ?_⟩
  intro y
  match y with
  | none => exact .inl ⟨_, rfl⟩
  | some Yaml.null => exact .inr rfl
  | some (Yaml.mapping ps) => exact .inl ⟨_, rfl⟩

/-- C4: when some loaded player record lacks the uuid or the name
field, the run aborts with an error during whitelist generation: the
whole file state is left untouched and neither the whitelist message
nor any later step's message is printed. -/
theorem C4 (fs : FS) (players : List Player) (lmsgs : List Msg)
    (hload : load_players fs.players = .ok (players, lmsgs))
    (hne : players ≠ [])
    (hmiss : ∃ p ∈ players, p.uuid = none ∨ p.name = none) :
    ∃ e, main fs =
      ⟨fs, Msg.header :: lmsgs ++ [Msg.loadedPlayers players.length], some e⟩ := by
  obtain ⟨e, he⟩ := buildWhitelist_error players hmiss
  refine ⟨e, ?_⟩
  simp only [main, hload, if_neg hne, generate_whitelist, he]
  simp

/-- Witness for C4: a player without a name aborts the run and leaves
the pre-existing whitelist, properties and keepinv files as they were. -/
theorem C4_witness :
    load_players (FS.mk (some (Yaml.mapping (some [⟨some "u", none, none⟩])))
        (some []) (some "max-players=5\n".toList) (some [])).players =
      .ok ([⟨some "u", none, none⟩], []) ∧
    ([⟨some "u", none, none⟩] : List Player) ≠ [] ∧
    (∃ p ∈ ([⟨some "u", none, none⟩] : List Player),
      p.uuid = none ∨ p.name = none) ∧
    ∃ e, main (FS.mk (some (Yaml.mapping (some [⟨some "u", none, none⟩])))
        (some []) (some "max-players=5\n".toList) (some [])) =
      ⟨FS.mk (some (Yaml.mapping (some [⟨some "u", none, none⟩])))
          (some []) (some "max-players=5\n".toList) (some []),
        Msg.header :: [] ++ [Msg.loadedPlayers 1], some e⟩ :=
  ⟨rfl, by decide, by decide,
    C4 (FS.mk (some (Yaml.mapping (some [⟨some "u", none, none⟩])))
        (some []) (some "max-players=5\n".toList) (some []))
      [⟨some "u", none, none⟩] [] rfl (by decide) (by decide)⟩

/-- C7: when the settings file exists but no line starts with the
max-players key, the run rewrites the file with byte-identical content,
prints the not-found warning, and still continues through the remaining
step to normal completion without an error. -/
theorem C7 (fs : FS) (players : List Player) (lmsgs : List Msg) (s : List Char)
    (hload : load_players fs.players = .ok (players, lmsgs))
    (hne : players ≠ [])
    (hfields : ∀ p ∈ players, p.uuid.isSome ∧ p.name.isSome)
    (hprops : fs.properties = some s)
    (hnomatch : ∀ l ∈ readlines s, maxPlayersKey.isPrefixOf l = false) :
    (main fs).error = none ∧
    (main fs).fs.properties = some s ∧
    Msg.maxPlayersNotFound ∈ (main fs).msgs ∧
    Msg.completed ∈ (main fs).msgs := by
  have husp : update_server_properties players (some s) =
      (some s, [Msg.maxPlayersNotFound]) := by
    simp only [update_server_properties,
      updateLines_of_not_found players.length _ hnomatch]
    simp [writelines_readlines]
  simp only [main, hload, if_neg hne, generate_whitelist,
    buildWhitelist_ok players hfields, update_keepinv_config,
    buildKeepInv_ok players (fun p hp _ => (hfields p hp).1), hprops, husp]
  refine ⟨?_, ?_, ?_, ?_⟩ <;> simp

/-- Witness for C7: one player, a settings file holding only foo=1. -/
theorem C7_witness :
    load_players (FS.mk (some (Yaml.mapping (some [⟨some "a", some "A", none⟩])))
        none (some "foo=1\n".toList) none).players =
      .ok ([⟨some "a", some "A", none⟩], []) ∧
    ([⟨some "a", some "A", none⟩] : List Player) ≠ [] ∧
    (∀ p ∈ ([⟨some "a", some "A", none⟩] : List Player),
      p.uuid.isSome ∧ p.name.isSome) ∧
    (FS.mk (some (Yaml.mapping (some [⟨some "a", some "A", none⟩])))
        none (some "foo=1\n".toList) none).properties = some "foo=1\n".toList ∧
    (∀ l ∈ readlines "foo=1\n".toList, maxPlayersKey.isPrefixOf l = false) ∧
    ((main (FS.mk (some (Yaml.mapping (some [⟨some "a", some "A", none⟩])))
        none (some "foo=1\n".toList) none)).error = none ∧
      (main (FS.mk (some (Yaml.mapping (some [⟨some "a", some "A", none⟩])))
        none (some "foo=1\n".toList) none)).fs.properties = some "foo=1\n".toList ∧
      Msg.maxPlayersNotFound ∈ (main (FS.mk
        (some (Yaml.mapping (some [⟨some "a", some "A", none⟩])))
        none (some "foo=1\n".toList) none)).msgs ∧
      Msg.completed ∈ (main (FS.mk
        (some (Yaml.mapping (some [⟨some "a", some "A", none⟩])))
        none (some "foo=1\n".toList) none)).msgs) :=
  ⟨rfl, by decide, by decide, rfl, by decide,
    C7 (FS.mk (some (Yaml.mapping (some [⟨some "a", some "A", none⟩])))
        none (some "foo=1\n".toList) none)
      [⟨some "a", some "A", none⟩] [] "foo=1\n".toList
      rfl (by decide) (by decide) rfl (by decide)⟩

/-- C9 as stated is false on the code: a final input line without a
terminator that is not the replaced line is written back without one.
Concretely, the one-line file foo=1 with no trailing newline and no
max-players line is rewritten as exactly foo=1, and that written
content has a line not ending in a newline. -/
theorem C9_counterexample :
    (update_server_properties [⟨some "a", some "A", none⟩]
        (some "foo=1".toList)).1 = some "foo=1".toList ∧
    ¬ ∀ l ∈ readlines "foo=1".toList, l.getLast? = some '\n' :=
  ⟨by decide, by decide⟩

/-- C9 amended: in the content the capacity updater writes back, every
line except possibly the last ends with a trailing newline; if the
input content ended with a newline so does the output; and the
replacement line itself always carries a trailing newline.  A final
unmatched input line without a terminator, however, is written back
without one: untouched terminators are preserved, not normalized. -/
theorem C9_amended (players : List Player) (s out : List Char)
    (h : (update_server_properties players (some s)).1 = some out) :
    (∀ l ∈ (readlines out).dropLast, l.getLast? = some '\n') ∧
    (s.getLast? = some '\n' → out.getLast? = some '\n') ∧
    (maxPlayersLine players.length).getLast? = some '\n' := by
  have hout : out = writelines (updateLines players.length (readlines s)).1 := by
    simp only [update_server_properties, Option.some.injEq] at h
    exact h.symm
  refine ⟨?_, ?_, ?_⟩
  · intro l hl
    exact closedLine_getLast l (wf_dropLast_closed _ (wf_readlines out) l hl)
  · intro hlast
    subst hout
    have hclosed := updateLines_all_closed players.length (readlines s)
      (readlines_all_closed s hlast)
    by_cases hnil : (updateLines players.length (readlines s)).1 = []
    · exfalso
      rcases updateLines_decomp players.length (readlines s) with
        ⟨heq, _⟩ | ⟨pre, l, post, hsplit, _, _, heq⟩
      · rw [heq] at hnil
        simp only at hnil
        have hs := writelines_readlines s
        rw [writelines, hnil] at hs
        rw [← hs] at hlast
        simp at hlast
      · rw [heq] at hnil
        simp at hnil
    · exact flatten_all_closed_getLast _ hclosed hnil
  · simp [maxPlayersLine]

/-- Witness for C9 amended: one player, input max-players=0 without a
trailing newline; the rewritten content is max-players=1 with one. -/
theorem C9_amended_witness :
    (update_server_properties [⟨some "a", some "A", none⟩]
        (some "max-players=0".toList)).1 = some "max-players=1\n".toList ∧
    ((∀ l ∈ (readlines "max-players=1\n".toList).dropLast,
        l.getLast? = some '\n') ∧
      ("max-players=0".toList.getLast? = some '\n' →
        "max-players=1\n".toList.getLast? = some '\n') ∧
      (maxPlayersLine ([⟨some "a", some "A", none⟩] : List Player).length).getLast?
        = some '\n') :=
  ⟨by decide, C9_amended _ _ _ (by decide)⟩

end ManagePlayers
